import Mathlib

/-
  Verification development for the LMDK data-cleansing engine.

  The repository's core engine (`rust_core.DataCleanser`) is an opaque native
  extension that is not present in source form; its behaviour is modelled here
  from the specification (normalization, keyword filtering, dedup store,
  counting, saving).  The Python wrapper code that *is* present in the source
  tree (`lmdk/dpe.py`'s `DataPipeline`, `lmdk/cli.py`'s toxic-keyword loading)
  is embedded directly from that source.
-/

namespace LMDK

/-- A text line, modelled as its list of characters. -/
abbrev Line := List Char

/-- Trim leading and trailing whitespace from a line (spec section 4.2:
the Line Normalizer first trims outer whitespace; internal runs are kept). -/
def trim (l : Line) : Line :=
  ((l.dropWhile Char.isWhitespace).reverse.dropWhile Char.isWhitespace).reverse

/-- Case-fold a line character by character (spec section 4.2). -/
def caseFold (l : Line) : Line :=
  l.map Char.toLower

/-- Modelled from the spec: the Line Normalizer of the absent native engine
(section 4.2): trim leading and trailing whitespace, then case-fold. -/
def normalize (l : Line) : Line :=
  caseFold (trim l)

/-- Check whether `pat` occurs at the very start of a line. -/
def leadsWith : Line → Line → Bool
  | [], _ => true
  | _ :: _, [] => false
  | a :: as, b :: bs => a == b && leadsWith as bs

/-- Check whether `pat` occurs as a contiguous substring of `l`. -/
def isSubstring (pat : Line) : Line → Bool
  | [] => pat.isEmpty
  | c :: rest => leadsWith pat (c :: rest) || isSubstring pat rest

/-- Modelled from the spec: the Keyword Matcher of the absent native engine
(section 4.1): does any configured keyword occur as a case-insensitive
substring of the line? -/
def contains_any (keywords : List Line) (l : Line) : Bool :=
  keywords.any (fun k => isSubstring (caseFold k) (caseFold l))

/-- Modelled from the spec: the Filter Pipeline of the absent native engine
(section 4.4): accept a line iff its trimmed length reaches `min_length`
and no configured keyword matches. -/
def passes (min_length : Nat) (keywords : List Line) (l : Line) : Bool :=
  decide (min_length ≤ (trim l).length) && ! contains_any keywords l

/-- Construction failures of the engine (spec section 7). -/
inductive ConfigurationError
  | negativeMinLength
deriving DecidableEq

/-- Write failures of the engine (spec section 7). -/
inductive IOFailure
  | writeFailed
deriving DecidableEq

/-- Modelled from the spec: the state of the absent native engine
`rust_core.DataCleanser` (spec section 3): immutable configuration plus the
Dedup Store (`seen`, `retained`) and the exposed `count`. -/
structure DataCleanser where
  min_length : Nat
  toxic_keywords : List Line
  seen : List Line
  retained : List Line
  count : Nat
deriving DecidableEq

namespace DataCleanser

/-- Modelled from the spec: construction of the absent native engine
(spec section 6): fails with a configuration error iff `min_length` is
negative; an absent keyword sequence behaves as the empty one
(spec section 4.1). -/
def new (min_length : Int) (toxic_keywords : Option (List Line)) :
    Except ConfigurationError DataCleanser :=
  if min_length < 0 then .error .negativeMinLength
  else .ok ⟨min_length.toNat, toxic_keywords.getD [], [], [], 0⟩

/-- A freshly constructed engine with the given valid configuration. -/
def mk0 (ml : Nat) (kws : List Line) : DataCleanser :=
  ⟨ml, kws, [], [], 0⟩

/-- The Filter Pipeline applied with this engine's configuration. -/
def accepts (c : DataCleanser) (l : Line) : Bool :=
  passes c.min_length c.toxic_keywords l

/-- Modelled from the spec: `offer` of the absent native engine's Dedup Store
(spec section 4.5): duplicates leave the state unchanged and return false;
new keys are inserted, the original text is appended, the count grows. -/
def offer (c : DataCleanser) (l : Line) : Bool × DataCleanser :=
  let key := normalize l
  if key ∈ c.seen then (false, c)
  else (true, { c with seen := c.seen ++ [key],
                       retained := c.retained ++ [l],
                       count := c.count + 1 })

/-- Process a single raw line: filter, then offer to the Dedup Store. -/
def processLine (c : DataCleanser) (l : Line) : DataCleanser :=
  if c.accepts l then (c.offer l).2 else c

/-- Process the lines of one file in order (spec section 2's control flow). -/
def processLines (c : DataCleanser) (ls : List Line) : DataCleanser :=
  ls.foldl processLine c

/-- Modelled from the spec: `process_file` of the absent native engine
(spec section 6): incorporate a file's lines and return the cumulative
unique count together with the updated engine. -/
def process_file (c : DataCleanser) (ls : List Line) : Nat × DataCleanser :=
  let c' := c.processLines ls
  (c'.count, c')

/-- The exact character content `save_cleaned_to_file` writes: each retained
original line followed by a single line terminator (spec section 6). -/
def saveContent (c : DataCleanser) : Line :=
  c.retained.foldr (fun l acc => l ++ '\n' :: acc) []

/-- Modelled from the spec: `save_cleaned_to_file` of the absent native engine
(spec sections 4.6 and 6).  The boolean oracle `writeOk` models whether the
external file write succeeds; the in-memory engine is returned unchanged in
both cases. -/
def save_cleaned_to_file (writeOk : Bool) (c : DataCleanser) :
    Except IOFailure Line × DataCleanser :=
  if writeOk then (.ok (saveContent c), c) else (.error .writeFailed, c)

end DataCleanser

/-- `DataPipeline` from src/lmdk/dpe.py: a thin wrapper that owns one
`DataCleanser`. -/
structure DataPipeline where
  cleanser : DataCleanser
deriving DecidableEq

/-- `DataPipeline.save_processed_data` from src/lmdk/dpe.py: the body is the
single statement `pass`.  The first component models the file write performed
(path and content), `none` meaning no file is written; the second component is
the pipeline state after the call. -/
def DataPipeline.save_processed_data (p : DataPipeline) (output_path : Line) :
    Option (Line × Line) × DataPipeline :=
  (none, p)

/-- The toxic-keyword loading of `prep` in src/lmdk/cli.py:
`[line.strip() for line in f if line.strip()]` — keep each line whose
stripped form is non-empty, stripped. -/
def loadToxicKeywords (ls : List Line) : List Line :=
  (ls.filter (fun l => ! (trim l).isEmpty)).map trim

/-- Insert keys left to right, skipping those already present. -/
def insertNew (seen : List Line) : List Line → List Line
  | [] => seen
  | k :: ks => if k ∈ seen then insertNew seen ks else insertNew (seen ++ [k]) ks

/-- Keep, left to right, each line whose normalized key was not seen before. -/
def firstAux (seen : List Line) : List Line → List Line
  | [] => []
  | l :: ls =>
      if normalize l ∈ seen then firstAux seen ls
      else l :: firstAux (seen ++ [normalize l]) ls

/-- The content lines of the file that `create_test_file` in src/test.py
actually writes: the triple-quoted `data` string, stripped, split at
newlines.  The ` # …` annotations are inside the Python string literal and
hence inside the data lines themselves. -/
def testDataLines : List Line :=
  [ "이것도 짧아요 # 필터링 대상 (길이 부족)",
    "  이것은 첫 번째 고유한 문장입니다. 대문자도 섞여 있습니다.",
    "이 문장은 필터를 통과하고 고유한 것으로 추적되어야 합니다.",
    "이것은 첫 번째 고유한 문장입니다. 대문자도 섞여 있습니다. # 중복 라인 (첫 번째와 동일)",
    "This is a fourth unique line that passes the minimum length filter.",
    "THIS IS A FOURTH UNIQUE LINE THAT PASSES THE MINIMUM LENGTH FILTER. # 중복 라인 (대소문자 무시)",
    "짧은 텍스트. # 필터링 대상",
    "badword1이 포함된 문장은 필터링되어야 합니다. # 유해 단어 필터링",
    "아주 긴 문장이지만 offensive_term이 들어있어서 삭제될 운명입니다. # 유해 단어 필터링"
  ].map String.toList

/-- Modelled from the spec: the toxic keywords configured in the section 8
scenario (`badword1`, `offensive_term`); the engine's built-in default list is
absent from the source and flagged as an open question in section 9. -/
def scenarioKeywords : List Line :=
  ["badword1", "offensive_term"].map String.toList

/-- The reference file exactly as section 8 of the spec describes it: the
annotation comments are no part of the lines, so line 4 is an exact repeat of
line 2's content without the leading spaces, line 6 is line 5 fully
upper-cased, and lines 1 and 7 are under 20 characters. -/
def specScenarioLines : List Line :=
  [ "이것도 짧아요",
    "  이것은 첫 번째 고유한 문장입니다. 대문자도 섞여 있습니다.",
    "이 문장은 필터를 통과하고 고유한 것으로 추적되어야 합니다.",
    "이것은 첫 번째 고유한 문장입니다. 대문자도 섞여 있습니다.",
    "This is a fourth unique line that passes the minimum length filter.",
    "THIS IS A FOURTH UNIQUE LINE THAT PASSES THE MINIMUM LENGTH FILTER.",
    "짧은 텍스트.",
    "badword1이 포함된 문장은 필터링되어야 합니다.",
    "아주 긴 문장이지만 offensive_term이 들어있어서 삭제될 운명입니다."
  ].map String.toList

theorem insertNew_cons_mem {seen k : _} {ks : List Line} (h : k ∈ seen) :
    insertNew seen (k :: ks) = insertNew seen ks := by
  simp [insertNew, h]

theorem insertNew_cons_not_mem {seen k : _} {ks : List Line} (h : k ∉ seen) :
    insertNew seen (k :: ks) = insertNew (seen ++ [k]) ks := by
  simp [insertNew, h]

theorem firstAux_cons_mem {seen l : _} {ls : List Line} (h : normalize l ∈ seen) :
    firstAux seen (l :: ls) = firstAux seen ls := by
  simp [firstAux, h]

theorem firstAux_cons_not_mem {seen l : _} {ls : List Line} (h : normalize l ∉ seen) :
    firstAux seen (l :: ls) = l :: firstAux (seen ++ [normalize l]) ls := by
  simp [firstAux, h]

namespace DataCleanser

theorem processLine_rejected {c : DataCleanser} {l : Line} (h : c.accepts l = false) :
    c.processLine l = c := by
  simp [processLine, h]

theorem processLine_dup {c : DataCleanser} {l : Line} (ha : c.accepts l = true)
    (h : normalize l ∈ c.seen) : c.processLine l = c := by
  simp [processLine, ha, offer, h]

theorem processLine_fresh {c : DataCleanser} {l : Line} (ha : c.accepts l = true)
    (h : normalize l ∉ c.seen) :
    c.processLine l = { c with seen := c.seen ++ [normalize l],
                               retained := c.retained ++ [l],
                               count := c.count + 1 } := by
  simp [processLine, ha, offer, h]

/-- The central characterization of processing: configuration is preserved,
`seen` accumulates the new normalized keys of accepted lines, `retained`
appends the first occurrence of each new key, and `count` grows by the
number of such first occurrences. -/
theorem processLines_char (ml : Nat) (kws : List Line) (ls : List Line) :
    ∀ (c : DataCleanser), c.min_length = ml → c.toxic_keywords = kws →
      (c.processLines ls).min_length = ml ∧
      (c.processLines ls).toxic_keywords = kws ∧
      (c.processLines ls).seen
        = insertNew c.seen ((ls.filter (passes ml kws)).map normalize) ∧
      (c.processLines ls).retained
        = c.retained ++ firstAux c.seen (ls.filter (passes ml kws)) ∧
      (c.processLines ls).count
        = c.count + (firstAux c.seen (ls.filter (passes ml kws))).length := by
  induction ls with
  | nil =>
    intro c hml hkw
    exact ⟨hml, hkw, rfl, by simp [processLines, firstAux], by simp [processLines, firstAux]⟩
  | cons l ls ih =>
    intro c hml hkw
    have hstep : c.processLines (l :: ls) = (c.processLine l).processLines ls := rfl
    by_cases hp : passes ml kws l
    · have hacc : c.accepts l = true := by
        simp [accepts, hml, hkw, hp]
      rw [List.filter_cons_of_pos (by exact hp)]
      by_cases hmem : normalize l ∈ c.seen
      · obtain ⟨h1, h2, h3, h4, h5⟩ := ih c hml hkw
        rw [hstep, processLine_dup hacc hmem]
        rw [List.map_cons, insertNew_cons_mem hmem, firstAux_cons_mem hmem]
        exact ⟨h1, h2, h3, h4, h5⟩
      · set c' : DataCleanser :=
          { c with seen := c.seen ++ [normalize l],
                   retained := c.retained ++ [l],
                   count := c.count + 1 } with hc'
        obtain ⟨h1, h2, h3, h4, h5⟩ := ih c' (by rw [hc']; exact hml) (by rw [hc']; exact hkw)
        rw [hstep, processLine_fresh hacc hmem]
        rw [List.map_cons, insertNew_cons_not_mem hmem, firstAux_cons_not_mem hmem]
        refine ⟨h1, h2, ?_, ?_, ?_⟩
        · exact h3
        · rw [h4, hc']
          simp
        · rw [h5, hc']
          simp
          omega
    · have hacc : c.accepts l = false := by
        simp [accepts, hml, hkw]
        exact Bool.not_eq_true _ ▸ (by exact hp)
      rw [List.filter_cons_of_neg (by simp [hp]), hstep, processLine_rejected hacc]
      exact ih c hml hkw

end DataCleanser

theorem firstAux_length (ls : List Line) :
    ∀ seen : List Line,
      (firstAux seen ls).length + seen.length = (insertNew seen (ls.map normalize)).length := by
  induction ls with
  | nil => intro seen; simp [firstAux, insertNew]
  | cons l ls ih =>
    intro seen
    by_cases hmem : normalize l ∈ seen
    · rw [List.map_cons, firstAux_cons_mem hmem, insertNew_cons_mem hmem]
      exact ih seen
    · rw [List.map_cons, firstAux_cons_not_mem hmem, insertNew_cons_not_mem hmem]
      have := ih (seen ++ [normalize l])
      simp at this ⊢
      omega

theorem insertNew_toFinset_nodup (ks : List Line) :
    ∀ seen : List Line, seen.Nodup →
      (insertNew seen ks).toFinset = (seen ++ ks).toFinset ∧ (insertNew seen ks).Nodup := by
  induction ks with
  | nil => intro seen h; exact ⟨by simp [insertNew], by simpa [insertNew] using h⟩
  | cons k ks ih =>
    intro seen h
    by_cases hmem : k ∈ seen
    · rw [insertNew_cons_mem hmem]
      obtain ⟨h1, h2⟩ := ih seen h
      refine ⟨?_, h2⟩
      rw [h1]
      simp [List.toFinset_append, List.toFinset_cons, Finset.union_insert]
      rw [Finset.insert_eq_self.mpr]
      simp [hmem]
    · rw [insertNew_cons_not_mem hmem]
      have hnd : (seen ++ [k]).Nodup := by
        simp [List.nodup_append, h, hmem]
      obtain ⟨h1, h2⟩ := ih (seen ++ [k]) hnd
      refine ⟨?_, h2⟩
      rw [h1, ← List.append_cons]

theorem insertNew_nil_length (ks : List Line) :
    (insertNew [] ks).length = ks.dedup.length := by
  obtain ⟨h1, h2⟩ := insertNew_toFinset_nodup ks [] (by simp)
  have := List.toFinset_card_of_nodup h2
  rw [h1] at this
  simp at this
  rw [← this, List.card_toFinset]

theorem mem_firstAux (ls : List Line) :
    ∀ (seen : List Line) (l : Line), l ∈ firstAux seen ls → normalize l ∉ seen := by
  induction ls with
  | nil => intro seen l h; simp [firstAux] at h
  | cons x ls ih =>
    intro seen l h
    by_cases hmem : normalize x ∈ seen
    · rw [firstAux_cons_mem hmem] at h
      exact ih seen l h
    · rw [firstAux_cons_not_mem hmem] at h
      rcases List.mem_cons.mp h with h | h
      · rw [h]; exact hmem
      · have := ih (seen ++ [normalize x]) l h
        intro hc
        exact this (by simp [hc])

/-- Per normalized key, the lines kept by `firstAux` are exactly the first
input line carrying that key. -/
theorem firstAux_filter_key (ls : List Line) :
    ∀ (seen : List Line) (k : Line),
      (k ∈ seen → (firstAux seen ls).filter (fun l => decide (normalize l = k)) = []) ∧
      (k ∉ seen → (firstAux seen ls).filter (fun l => decide (normalize l = k))
          = ((ls.filter (fun l => decide (normalize l = k))).take 1)) := by
  induction ls with
  | nil => intro seen k; constructor <;> intro _ <;> simp [firstAux]
  | cons x ls ih =>
    intro seen k
    constructor
    · intro hk
      apply List.filter_eq_nil_iff.mpr
      intro a ha
      have := mem_firstAux (x :: ls) seen a ha
      simp
      intro hc
      exact this (hc ▸ hk)
    · intro hk
      by_cases hmem : normalize x ∈ seen
      · rw [firstAux_cons_mem hmem]
        have hne : ¬ (normalize x = k) := fun hc => hk (hc ▸ hmem)
        rw [List.filter_cons_of_neg (by simp [hne])]
        exact (ih seen k).2 hk
      · by_cases hxk : normalize x = k
        · rw [firstAux_cons_not_mem hmem]
          rw [List.filter_cons_of_pos (by simp [hxk]), List.filter_cons_of_pos (by simp [hxk])]
          have htail : (firstAux (seen ++ [normalize x]) ls).filter
              (fun l => decide (normalize l = k)) = [] :=
            (ih (seen ++ [normalize x]) k).1 (by simp [hxk])
          rw [htail]
          simp [List.take_one]
        · rw [firstAux_cons_not_mem hmem]
          rw [List.filter_cons_of_neg (by simp [hxk]), List.filter_cons_of_neg (by simp [hxk])]
          refine (ih (seen ++ [normalize x]) k).2 ?_
          simp [hk]
          exact fun hc => hxk hc.symm

namespace DataCleanser

theorem count_le_processLine (c : DataCleanser) (l : Line) :
    c.count ≤ (c.processLine l).count := by
  by_cases hacc : c.accepts l
  · by_cases hmem : normalize l ∈ c.seen
    · rw [processLine_dup hacc hmem]
    · rw [processLine_fresh hacc hmem]
      simp
  · rw [processLine_rejected (by simpa using hacc)]

theorem count_le_processLines (ls : List Line) :
    ∀ c : DataCleanser, c.count ≤ (c.processLines ls).count := by
  induction ls with
  | nil => intro c; exact Nat.le_refl _
  | cons l ls ih =>
    intro c
    calc c.count ≤ (c.processLine l).count := count_le_processLine c l
    _ ≤ ((c.processLine l).processLines ls).count := ih _

/-- On a fresh engine, the final count is the number of distinct normalized
keys among the accepted lines. -/
theorem count_mk0 (ml : Nat) (kws ls : List Line) :
    ((mk0 ml kws).processLines ls).count
      = (((ls.filter (passes ml kws)).map normalize).dedup).length := by
  obtain ⟨-, -, -, -, h5⟩ := processLines_char ml kws ls (mk0 ml kws) rfl rfl
  simp only [mk0, Nat.zero_add] at h5 ⊢
  have hlen := firstAux_length (ls.filter (passes ml kws)) []
  simp only [List.length_nil, Nat.add_zero] at hlen
  rw [h5, hlen, insertNew_nil_length]

/-- On a fresh engine, the retained lines are the first occurrences of each
new normalized key among the accepted lines. -/
theorem retained_mk0 (ml : Nat) (kws ls : List Line) :
    ((mk0 ml kws).processLines ls).retained = firstAux [] (ls.filter (passes ml kws)) := by
  obtain ⟨-, -, -, h4, -⟩ := processLines_char ml kws ls (mk0 ml kws) rfl rfl
  simpa using h4

end DataCleanser

/-- C1: for every configuration and every sequence of processed input lines,
the engine's count equals the number of distinct normalized keys (trim then
case-fold) among the lines that pass the length and keyword filters, and this
count equals the length of the retained sequence. -/
theorem count_equals_distinct_normalized_keys (ml : Nat) (kws ls : List Line) :
    ((DataCleanser.mk0 ml kws).processLines ls).count
        = (((ls.filter (passes ml kws)).map normalize).dedup).length
  ∧ ((DataCleanser.mk0 ml kws).processLines ls).count
        = ((DataCleanser.mk0 ml kws).processLines ls).retained.length := by
  refine ⟨DataCleanser.count_mk0 ml kws ls, ?_⟩
  rw [DataCleanser.count_mk0, DataCleanser.retained_mk0]
  have hlen := firstAux_length (ls.filter (passes ml kws)) []
  simp only [List.length_nil, Nat.add_zero] at hlen
  rw [hlen, insertNew_nil_length]

/-- C2 counterexample: on the file that src/test.py's `create_test_file`
actually writes, the modelled engine (min_length 20, keywords `badword1` and
`offensive_term`) retains 6 lines, not 3: the embedded ` # …` annotations make
line 1 pass the length filter (24 characters) and make lines 4 and 6 distinct
from lines 2 and 5. -/
theorem test_file_count_is_six_not_three :
    ((DataCleanser.mk0 20 scenarioKeywords).processLines testDataLines).count = 6
  ∧ ((DataCleanser.mk0 20 scenarioKeywords).processLines testDataLines).count ≠ 3 := by
  decide

/-- C2 (amended): on the reference file exactly as section 8 describes it,
processing yields a final count of 3 and `save_cleaned_to_file` writes exactly
the three original-cased retained lines — the second, third and fifth content
lines — in that order, each followed by a single line terminator. -/
theorem spec_scenario_count_three_order :
    ((DataCleanser.mk0 20 scenarioKeywords).processLines specScenarioLines).count = 3
  ∧ ((DataCleanser.mk0 20 scenarioKeywords).processLines specScenarioLines).retained
      = [ "  이것은 첫 번째 고유한 문장입니다. 대문자도 섞여 있습니다.",
          "이 문장은 필터를 통과하고 고유한 것으로 추적되어야 합니다.",
          "This is a fourth unique line that passes the minimum length filter." ].map
          String.toList
  ∧ DataCleanser.saveContent
        ((DataCleanser.mk0 20 scenarioKeywords).processLines specScenarioLines)
      = String.toList ("  이것은 첫 번째 고유한 문장입니다. 대문자도 섞여 있습니다.\n이 문장은 필터를 통과하고 고유한 것으로 추적되어야 합니다.\nThis is a fourth unique line that passes the minimum length filter.\n") := by
  decide

/-- C3: offering a line whose normalized key is already seen returns false and
leaves the state unchanged; otherwise offer inserts the key, appends the
original un-normalized text, increments the count and returns true — and
consequently, per normalized key, the retained sequence holds exactly the
first accepted line with that key, never a later one. -/
theorem offer_dedup_first_wins :
    (∀ (c : DataCleanser) (l : Line), normalize l ∈ c.seen → c.offer l = (false, c))
  ∧ (∀ (c : DataCleanser) (l : Line), normalize l ∉ c.seen →
        c.offer l = (true, { c with seen := c.seen ++ [normalize l],
                                    retained := c.retained ++ [l],
                                    count := c.count + 1 }))
  ∧ (∀ (ml : Nat) (kws ls : List Line) (k : Line),
        (((DataCleanser.mk0 ml kws).processLines ls).retained).filter
            (fun l => decide (normalize l = k))
          = (((ls.filter (passes ml kws)).filter
              (fun l => decide (normalize l = k))).take 1)) := by
  refine ⟨?_, ?_, ?_⟩
  · intro c l h
    simp [DataCleanser.offer, h]
  · intro c l h
    simp [DataCleanser.offer, h]
  · intro ml kws ls k
    rw [DataCleanser.retained_mk0]
    exact (firstAux_filter_key (ls.filter (passes ml kws)) [] k).2 (by simp)

/-- C3 witness: offer at concrete inputs, in both the duplicate and the fresh
case. -/
theorem offer_dedup_first_wins_witness :
    (⟨0, [], [['a']], [['a']], 1⟩ : DataCleanser).offer ['a']
        = (false, (⟨0, [], [['a']], [['a']], 1⟩ : DataCleanser))
  ∧ (DataCleanser.mk0 0 []).offer ['a']
        = (true, { DataCleanser.mk0 0 [] with
                   seen := (DataCleanser.mk0 0 []).seen ++ [normalize ['a']],
                   retained := (DataCleanser.mk0 0 []).retained ++ [['a']],
                   count := (DataCleanser.mk0 0 []).count + 1 }) :=
  ⟨offer_dedup_first_wins.1 ⟨0, [], [['a']], [['a']], 1⟩ ['a'] (by decide),
   offer_dedup_first_wins.2.1 (DataCleanser.mk0 0 []) ['a'] (by decide)⟩

/-- C4: with an empty keyword list `contains_any` is false on every line, the
filter degenerates to the pure length test, an absent keyword sequence at
construction behaves as the empty one, and the accepted-line filter of a
keyword-free engine is exactly the length filter. -/
theorem empty_keywords_never_reject :
    (∀ l : Line, contains_any [] l = false)
  ∧ (∀ (ml : Nat) (l : Line), passes ml [] l = decide (ml ≤ (trim l).length))
  ∧ (∀ (ml : Int) (c : DataCleanser), DataCleanser.new ml none = .ok c →
        c.toxic_keywords = [])
  ∧ (∀ (ml : Nat) (ls : List Line),
        ls.filter (passes ml []) = ls.filter (fun l => decide (ml ≤ (trim l).length))) := by
  have h1 : ∀ l : Line, contains_any [] l = false := fun l => rfl
  have h2 : ∀ (ml : Nat) (l : Line), passes ml [] l = decide (ml ≤ (trim l).length) := by
    intro ml l
    simp [passes, h1]
  refine ⟨h1, h2, ?_, ?_⟩
  · intro ml c h
    rw [DataCleanser.new] at h
    by_cases hml : ml < 0
    · rw [if_pos hml] at h
      exact absurd h (by simp)
    · rw [if_neg hml] at h
      have := Except.ok.inj h
      rw [← this]
      rfl
  · intro ml ls
    exact List.filter_congr (fun l _ => h2 ml l)

/-- C4 witness: a keyword-free engine at concrete inputs. -/
theorem empty_keywords_never_reject_witness :
    contains_any [] (String.toList "badword1 embedded") = false
  ∧ (⟨20, [], [], [], 0⟩ : DataCleanser).toxic_keywords = [] :=
  ⟨empty_keywords_never_reject.1 (String.toList "badword1 embedded"),
   empty_keywords_never_reject.2.2.1 20 ⟨20, [], [], [], 0⟩ (by rfl)⟩

/-- C5: `process_file` returns the cumulative unique count after incorporating
the file: its return value equals the `count` read immediately afterwards,
which in turn equals the length of the retained sequence. -/
theorem process_file_cumulative_count (c : DataCleanser) (ls : List Line)
    (h : c.count = c.retained.length) :
    (c.process_file ls).1 = (c.process_file ls).2.count
  ∧ (c.process_file ls).1 = (c.process_file ls).2.retained.length := by
  refine ⟨rfl, ?_⟩
  obtain ⟨-, -, -, h4, h5⟩ :=
    DataCleanser.processLines_char c.min_length c.toxic_keywords ls c rfl rfl
  show (c.processLines ls).count = (c.processLines ls).retained.length
  rw [h4, h5, h]
  simp

/-- C5 witness: a concrete fresh engine and a concrete one-line file. -/
theorem process_file_cumulative_count_witness :
    ((DataCleanser.mk0 3 []).process_file [['a', 'b', 'c']]).1
        = ((DataCleanser.mk0 3 []).process_file [['a', 'b', 'c']]).2.count
  ∧ ((DataCleanser.mk0 3 []).process_file [['a', 'b', 'c']]).1
        = ((DataCleanser.mk0 3 []).process_file [['a', 'b', 'c']]).2.retained.length :=
  process_file_cumulative_count (DataCleanser.mk0 3 []) [['a', 'b', 'c']] (by decide)

/-- C6: a failed `save_cleaned_to_file` leaves the in-memory engine state
unchanged and reports an I/O error; a successful one also leaves the state
unchanged and writes the retained lines. -/
theorem save_failure_preserves_state (c : DataCleanser) (ok : Bool) :
    (DataCleanser.save_cleaned_to_file ok c).2 = c
  ∧ (ok = false →
      (DataCleanser.save_cleaned_to_file ok c).1 = .error .writeFailed)
  ∧ (ok = true →
      (DataCleanser.save_cleaned_to_file ok c).1 = .ok (DataCleanser.saveContent c)) := by
  cases ok <;> simp [DataCleanser.save_cleaned_to_file]

/-- C6 witness: a failed save on a concrete engine with one retained line. -/
theorem save_failure_preserves_state_witness :
    (DataCleanser.save_cleaned_to_file false ⟨1, [], [['a']], [['a']], 1⟩).2
        = (⟨1, [], [['a']], [['a']], 1⟩ : DataCleanser)
  ∧ (DataCleanser.save_cleaned_to_file false ⟨1, [], [['a']], [['a']], 1⟩).1
        = .error .writeFailed :=
  ⟨(save_failure_preserves_state ⟨1, [], [['a']], [['a']], 1⟩ false).1,
   (save_failure_preserves_state ⟨1, [], [['a']], [['a']], 1⟩ false).2.1 rfl⟩

/-- C7: construction with a negative `min_length` fails with a configuration
error; construction with `min_length ≥ 0` succeeds, the default 20 included;
and processing is a total operation returning a plain pair, so no
configuration error can arise after construction. -/
theorem negative_min_length_rejected_at_construction :
    (∀ (ml : Int) (kws : Option (List Line)), ml < 0 →
        DataCleanser.new ml kws = .error .negativeMinLength)
  ∧ (∀ (ml : Int) (kws : Option (List Line)), 0 ≤ ml →
        DataCleanser.new ml kws = .ok ⟨ml.toNat, kws.getD [], [], [], 0⟩)
  ∧ DataCleanser.new 20 none = .ok (DataCleanser.mk0 20 [])
  ∧ (∀ (c : DataCleanser) (ls : List Line),
        c.process_file ls = ((c.processLines ls).count, c.processLines ls)) := by
  refine ⟨?_, ?_, rfl, fun c ls => rfl⟩
  · intro ml kws h
    simp [DataCleanser.new, h]
  · intro ml kws h
    simp [DataCleanser.new, Int.not_lt.mpr h]

/-- C7 witness: construction at min_length -1 and at min_length 0. -/
theorem negative_min_length_rejected_at_construction_witness :
    DataCleanser.new (-1) none = .error .negativeMinLength
  ∧ DataCleanser.new 0 none
      = .ok ⟨(0 : Int).toNat, (none : Option (List Line)).getD [], [], [], 0⟩ :=
  ⟨negative_min_length_rejected_at_construction.1 (-1) none (by decide),
   negative_min_length_rejected_at_construction.2.1 0 none (by decide)⟩

/-- C8: processing file A then file B on one engine yields a count at least
each single-file fresh count; the combined count equals the number of distinct
normalized keys across both files, so a key occurring in both is counted only
once; and the count never decreases across successive processing. -/
theorem cumulative_cross_file_dedup (ml : Nat) (kws A B : List Line) :
    ((DataCleanser.mk0 ml kws).processLines A).count
        ≤ (((DataCleanser.mk0 ml kws).processLines A).processLines B).count
  ∧ ((DataCleanser.mk0 ml kws).processLines B).count
        ≤ (((DataCleanser.mk0 ml kws).processLines A).processLines B).count
  ∧ (((DataCleanser.mk0 ml kws).processLines A).processLines B).count
        = ((((A ++ B).filter (passes ml kws)).map normalize).dedup).length
  ∧ (∀ (c : DataCleanser) (ls : List Line), c.count ≤ (c.processLines ls).count) := by
  have hAB : ((DataCleanser.mk0 ml kws).processLines A).processLines B
      = (DataCleanser.mk0 ml kws).processLines (A ++ B) := by
    simp [DataCleanser.processLines, List.foldl_append]
  refine ⟨DataCleanser.count_le_processLines B _, ?_, ?_,
    fun c ls => DataCleanser.count_le_processLines ls c⟩
  · rw [hAB, DataCleanser.count_mk0, DataCleanser.count_mk0]
    rw [← List.card_toFinset, ← List.card_toFinset]
    apply Finset.card_le_card
    rw [List.filter_append, List.map_append, List.toFinset_append]
    exact Finset.subset_union_right
  · rw [hAB, DataCleanser.count_mk0]

/-- C9: `DataPipeline.save_processed_data` is a no-op for every output path:
it writes no file and leaves the cleanser's seen, retained and count
unchanged. -/
theorem save_processed_data_is_noop (p : DataPipeline) (path : Line) :
    p.save_processed_data path = (none, p)
  ∧ (p.save_processed_data path).2.cleanser.seen = p.cleanser.seen
  ∧ (p.save_processed_data path).2.cleanser.retained = p.cleanser.retained
  ∧ (p.save_processed_data path).2.cleanser.count = p.cleanser.count :=
  ⟨rfl, rfl, rfl, rfl⟩

/-- C10: the prep command's keyword loading passes to the engine exactly the
file's lines with surrounding whitespace stripped and blank lines omitted; in
particular the empty string is never among the configured keywords. -/
theorem prep_keywords_stripped_nonblank (ls : List Line) :
    loadToxicKeywords ls = (ls.map trim).filter (fun t => ! t.isEmpty)
  ∧ ([] : Line) ∉ loadToxicKeywords ls := by
  constructor
  · induction ls with
    | nil => rfl
    | cons l ls ih =>
      by_cases h : (trim l).isEmpty
      · simpa [loadToxicKeywords, List.filter_cons, h] using ih
      · simpa [loadToxicKeywords, List.filter_cons, h] using ih
  · intro hmem
    simp only [loadToxicKeywords, List.mem_map, List.mem_filter] at hmem
    obtain ⟨l, ⟨-, hne⟩, htr⟩ := hmem
    rw [htr] at hne
    simp at hne

end LMDK
